import Mathlib

/-!
Verification development for the memeduck SQL statement builder
(package `memeduck`, Go). The definitions below are a shallow embedding of
`src/memeduck.go` (the chainable Select/Delete/Insert builders), of the
older variadic variant in `src/unnamed/part_000` (suffixed `V`), and of a
Go-slice heap model used to reason about the aliasing behaviour of the
`append`-based clause lists. Parts of the repository that are referenced
but absent from the inspected sources (the `internal.ToExpr` encoder, the
`And` condition combinator, the `UpdateStmt` builder) are modelled from the
specification and marked as such in their doc comments.
-/

namespace Memeduck

/-- Expression AST, embedding the fragment of `memefish` `ast.Expr` that the
builders construct: identifiers, literals, parameters, the `DefaultExpr`
wrapper put around every VALUES cell, and AND nodes built by the `And`
combinator. -/
inductive Expr where
  | ident (segs : List String)
  | intLit (n : Int)
  | boolLit (b : Bool)
  | strLit (s : String)
  | nullLit
  | param (name : String)
  | defaultExpr (e : Expr)
  | andE (l r : Expr)
  deriving DecidableEq, Repr

/-- Error values returned by the builders. Each constructor stands for one
distinct `errors.New` / `errors.Errorf` site of the source (or of the
spec-modelled missing code); `withMessage` embeds the
`errors.WithMessagef("cant convert %T into SQL row")` wrapper, carrying the
offending row type name. -/
inductive Err where
  | noColumnsSpecified
  | noInputSpecified
  | emptyValues
  | cantCreateInsertInput
  | notStructNorSlice (typeName : String)
  | columnNotFound (typeName col : String)
  | unsupportedType (typeName : String)
  | emptyConds
  | whereCondErr (msg : String)
  | valuesNotSlice
  | withMessage (typeName : String) (e : Err)
  | noSetClause
  | noWhereClause
  | emptyIdent
  deriving DecidableEq, Repr

/-- A Go runtime value as seen through `reflect`: the kinds the insert
encoder dispatches on. A struct value carries its type name and its fields
as `(declared name, spanner tag, value)` triples; the tag is the value of
the `spanner` struct tag, the empty string when the tag is absent. -/
inductive GoValue where
  | intV (n : Int)
  | boolV (b : Bool)
  | strV (s : String)
  | nullV
  | exprV (e : Expr)
  | sliceV (elems : List GoValue)
  | structV (typeName : String) (fields : List (String × String × GoValue))
  | ptrV (v : GoValue)
  | otherV (typeName : String)

/-- Test for the nil interface value (`s.values == nil` in Go). -/
def GoValue.isNil : GoValue → Bool
  | .nullV => true
  | _ => false

/-- The `%T` / `Type().String()` name of a value, as used in error texts. -/
def GoValue.typeName : GoValue → String
  | .intV _ => "int"
  | .boolV _ => "bool"
  | .strV _ => "string"
  | .nullV => "nil"
  | .exprV _ => "ast.Expr"
  | .sliceV _ => "slice"
  | .structV tn _ => tn
  | .ptrV v => "*" ++ v.typeName
  | .otherV tn => tn

/-- Modelled from the spec: `internal.ToExpr` (spec section 4.2
`ToExpression`), whose source is not under `src/`. Total over integers,
booleans, strings, nil (Null literal) and already-built expression values
(pass-through); fails with an unsupported-type error on anything else
(structs, maps, slices are handled one level up, not here). -/
def toExpr : GoValue → Except Err Expr
  | .intV n => .ok (.intLit n)
  | .boolV b => .ok (.boolLit b)
  | .strV s => .ok (.strLit s)
  | .nullV => .ok .nullLit
  | .exprV e => .ok e
  | v => .error (.unsupportedType v.typeName)

/-- Boolean success test for the encoders (used to state decidable
hypotheses). -/
def isOkE {α : Type} : Except Err α → Bool
  | .ok _ => true
  | .error _ => false

/-- The expression an encodable value encodes to (junk on failure; only
used under an `isOkE` hypothesis). -/
def exprOf (v : GoValue) : Expr :=
  match toExpr v with
  | .ok e => e
  | .error _ => .nullLit

/-- A WHERE-clause condition (`WhereCond` interface value), characterized by
the result of its `ToASTWhere` method: either a boolean expression or an
error message produced by the condition combinators. -/
structure WhereCond where
  toASTWhere : Except String Expr

/-- Modelled from the spec: the left-associative pairwise AND fold of the
`And` combinator (spec section 4.3), whose source is not under `src/`. -/
def andFold (acc : Expr) : List WhereCond → Except Err Expr
  | [] => .ok acc
  | c :: cs =>
    match c.toASTWhere with
    | .error m => .error (.whereCondErr m)
    | .ok e => andFold (.andE acc e) cs

/-- Modelled from the spec: `And(conds...).ToASTWhere()` (spec sections 4.1,
4.3, 4.4), whose source is not under `src/`. Zero conditions are rejected
with an explicit error (the render-time failure of spec section 4.4);
otherwise the conditions are folded left-associatively with AND, and the
first failing condition aborts with its own error. -/
def andToASTWhere : List WhereCond → Except Err Expr
  | [] => .error .emptyConds
  | c :: cs =>
    match c.toASTWhere with
    | .error m => .error (.whereCondErr m)
    | .ok e => andFold e cs

/-- Ordering direction (`memeduck.Direction`). -/
inductive Direction where
  | asc
  | desc
  deriving DecidableEq, Repr

/-- One ORDER BY item (Go type `ordering`). -/
structure ordering where
  col : String
  dir : Direction

/-- `SelectStmt` of `src/memeduck.go`: table, columns, accumulated WHERE
conditions, ORDER BY items and optional LIMIT. -/
structure SelectStmt where
  table : String
  cols : List String
  conds : List WhereCond
  ords : List ordering
  limit : Option Int

/-- `Select(table, cols)` of `src/memeduck.go`: conds, ords, limit start as
their zero values. -/
def Select (table : String) (cols : List String) : SelectStmt :=
  { table := table, cols := cols, conds := [], ords := [], limit := none }

/-- `SelectStmt.Where` of `src/memeduck.go`, value-level view: the new
statement carries the old conditions followed by the appended ones. (The
backing-array aliasing of the Go `append` is modelled separately by the
heap model below.) -/
def SelectStmt.Where (s : SelectStmt) (conds : List WhereCond) : SelectStmt :=
  { s with conds := s.conds ++ conds }

/-- `SelectStmt.OrderBy` of `src/memeduck.go`. -/
def SelectStmt.OrderBy (s : SelectStmt) (col : String) (dir : Direction) : SelectStmt :=
  { s with ords := s.ords ++ [{ col := col, dir := dir }] }

/-- `SelectStmt.Limit` of `src/memeduck.go`: replaces any existing LIMIT. -/
def SelectStmt.Limit (s : SelectStmt) (limit : Int) : SelectStmt :=
  { s with limit := some limit }

/-- The `ast.Select` tree built by `SelectStmt.toAST` (select items and
order-by items reduced to their column names/orderings). -/
structure SelectAST where
  table : String
  results : List String
  whereCond : Option Expr
  orderBy : List ordering
  limit : Option Int

/-- `SelectStmt.toAST` of `src/memeduck.go`, in source order: the WHERE
conditions are folded first (when present), then the column list is checked
for emptiness, then the tree is assembled. -/
def SelectStmt.toAST (s : SelectStmt) : Except Err SelectAST :=
  let whereStep : Except Err (Option Expr) :=
    if s.conds.length > 0 then
      match andToASTWhere s.conds with
      | .error e => .error e
      | .ok w => .ok (some w)
    else .ok none
  match whereStep with
  | .error e => .error e
  | .ok whereE =>
    if s.cols.length ≤ 0 then .error .noColumnsSpecified
    else
      .ok { table := s.table, results := s.cols, whereCond := whereE,
            orderBy := s.ords, limit := s.limit }

/-- `SelectStmt.SQL` of `src/memeduck.go`: `toAST` followed by the memefish
renderer `ast.SQL()`, which is total (it returns a string and no error), so
the error behaviour of `SQL()` is exactly that of `toAST`; we keep the AST
as the success value. -/
def SelectStmt.SQL (s : SelectStmt) : Except Err SelectAST :=
  s.toAST

/-- `DeleteStmt` of `src/memeduck.go` (the chainable variant). -/
structure DeleteStmt where
  table : String
  conds : List WhereCond

/-- `Delete(table)` of `src/memeduck.go`: no conditions yet. -/
def Delete (table : String) : DeleteStmt :=
  { table := table, conds := [] }

/-- `DeleteStmt.Where` of `src/memeduck.go`, value-level view. -/
def DeleteStmt.Where (s : DeleteStmt) (conds : List WhereCond) : DeleteStmt :=
  { table := s.table, conds := s.conds ++ conds }

/-- The `ast.Delete` tree. -/
structure DeleteAST where
  table : String
  whereCond : Expr

/-- `DeleteStmt.toAST` of `src/memeduck.go`: folds all conditions with
`And(...).ToASTWhere()` unconditionally, so zero conditions surface the
combinator error. -/
def DeleteStmt.toAST (s : DeleteStmt) : Except Err DeleteAST :=
  match andToASTWhere s.conds with
  | .error e => .error e
  | .ok w => .ok { table := s.table, whereCond := w }

/-- `DeleteStmt.SQL` of `src/memeduck.go` (rendering is total, see
`SelectStmt.SQL`). -/
def DeleteStmt.SQL (s : DeleteStmt) : Except Err DeleteAST :=
  s.toAST

/-- `InsertStmt` of `src/memeduck.go`. `values` holds the Go `interface` of
the value source; `GoValue.nullV` stands for the nil interface (never set,
or set to nil). -/
structure InsertStmt where
  table : String
  cols : List String
  values : GoValue

/-- `Insert(table, cols)` of `src/memeduck.go`: values start nil. -/
def Insert (table : String) (cols : List String) : InsertStmt :=
  { table := table, cols := cols, values := .nullV }

/-- `InsertStmt.Values` of `src/memeduck.go`: replaces existing values. -/
def InsertStmt.Values (s : InsertStmt) (values : GoValue) : InsertStmt :=
  { table := s.table, cols := s.cols, values := values }

/-- `columnNameOf` of `src/memeduck.go`, on a field's declared name and its
`spanner` tag: empty tag resolves to the declared name, tag `-` excludes
the field, any other tag is the alias. -/
def columnNameOf (name tag : String) : Option String :=
  if tag = "" then some name
  else if tag = "-" then none
  else some tag

/-- The inner field loop of `InsertStmt.structToValuesRow` for one column:
walk the fields in declaration order, skip those whose resolved name is
absent or differs from the column, encode each match with `ToExpr` (the
first failing encode aborts), and collect one `DefaultExpr` per match. The
resulting list is empty exactly when the Go loop leaves `colFound` false. -/
def colExprs (col : String) : List (String × String × GoValue) → Except Err (List Expr)
  | [] => .ok []
  | (n, tag, v) :: rest =>
    match columnNameOf n tag with
    | none => colExprs col rest
    | some fn =>
      if fn = col then
        match toExpr v with
        | .error e => .error e
        | .ok e =>
          match colExprs col rest with
          | .error e2 => .error e2
          | .ok es => .ok (.defaultExpr e :: es)
      else colExprs col rest

/-- The outer column loop of `InsertStmt.structToValuesRow`: per column in
column-list order, append that column's matched expressions; a column with
no matching field fails with the column-not-found error naming the record
type and the column. -/
def structRowAux (tn : String) (fields : List (String × String × GoValue)) :
    List String → Except Err (List Expr)
  | [] => .ok []
  | c :: cs =>
    match colExprs c fields with
    | .error e => .error e
    | .ok [] => .error (.columnNotFound tn c)
    | .ok es =>
      match structRowAux tn fields cs with
      | .error e => .error e
      | .ok rest => .ok (es ++ rest)

/-- `InsertStmt.structToValuesRow` of `src/memeduck.go` on a struct value
given as its type name and field triples. -/
def InsertStmt.structToValuesRow (s : InsertStmt) (tn : String)
    (fields : List (String × String × GoValue)) : Except Err (List Expr) :=
  structRowAux tn fields s.cols

/-- The element loop of `InsertStmt.sliceToValuesRow`: encode each element
with `ToExpr` in order, wrap in `DefaultExpr`, abort on the first failure. -/
def sliceRowAux : List GoValue → Except Err (List Expr)
  | [] => .ok []
  | v :: vs =>
    match toExpr v with
    | .error e => .error e
    | .ok e =>
      match sliceRowAux vs with
      | .error e2 => .error e2
      | .ok rest => .ok (.defaultExpr e :: rest)

/-- `InsertStmt.sliceToValuesRow` of `src/memeduck.go`: the receiver (hence
the statement's column list) is not consulted, mirroring the source, where
the method body never reads `s`. -/
def InsertStmt.sliceToValuesRow (_s : InsertStmt) (elems : List GoValue) :
    Except Err (List Expr) :=
  sliceRowAux elems

/-- `InsertStmt.toValuesRow` of `src/memeduck.go`: dispatch on the reflect
kind — slice rows and struct rows (a pointer to a struct is dereferenced),
anything else is neither struct nor slice. -/
def InsertStmt.toValuesRow (s : InsertStmt) (val : GoValue) : Except Err (List Expr) :=
  match val with
  | .sliceV elems => s.sliceToValuesRow elems
  | .structV tn fields => s.structToValuesRow tn fields
  | .ptrV (.structV tn fields) => s.structToValuesRow tn fields
  | v => .error (.notStructNorSlice v.typeName)

/-- The row loop of `InsertStmt.sliceToInsertInput`: convert each row,
wrapping a row failure with the cant-convert message carrying the row's
type name. -/
def insRows (s : InsertStmt) : List GoValue → Except Err (List (List Expr))
  | [] => .ok []
  | r :: rs =>
    match s.toValuesRow r with
    | .error e => .error (.withMessage r.typeName e)
    | .ok row =>
      match insRows s rs with
      | .error e => .error e
      | .ok rest => .ok (row :: rest)

/-- `InsertStmt.sliceToInsertInput` of `src/memeduck.go`: an empty slice of
rows fails with the empty-values error, otherwise each row is converted in
order. -/
def InsertStmt.sliceToInsertInput (s : InsertStmt) (rows : List GoValue) :
    Except Err (List (List Expr)) :=
  if rows.length ≤ 0 then .error .emptyValues
  else insRows s rows

/-- The `ast.Insert` tree (VALUES input as a list of rows of expressions). -/
structure InsertAST where
  table : String
  columns : List String
  input : List (List Expr)

/-- `InsertStmt.toAST` of `src/memeduck.go`: nil values fail with the
no-input error, a slice value source is converted row by row, any other
kind fails with the cant-create-insert-input error. The column list is
never validated. -/
def InsertStmt.toAST (s : InsertStmt) : Except Err InsertAST :=
  if s.values.isNil then .error .noInputSpecified
  else
    match s.values with
    | .sliceV rows =>
      match s.sliceToInsertInput rows with
      | .error e => .error e
      | .ok input => .ok { table := s.table, columns := s.cols, input := input }
    | _ => .error .cantCreateInsertInput

/-- `InsertStmt.SQL` of `src/memeduck.go` (rendering is total, see
`SelectStmt.SQL`). -/
def InsertStmt.SQL (s : InsertStmt) : Except Err InsertAST :=
  s.toAST

/-- Outcome of running a Go function that may, besides returning a value or
an error result, abort with a runtime fault (panic). Used for the variadic
variant of `src/unnamed/part_000`, whose `toAST` indexes `conds[0]`
without a length guard. -/
inductive GoOutcome (α : Type) where
  | ok (a : α)
  | err (e : Err)
  | fault (msg : String)

/-- `DeleteStmt` of `src/unnamed/part_000` (the variadic-constructor
variant). -/
structure DeleteStmtV where
  table : String
  conds : List WhereCond

/-- `Delete(table, conds...)` of `src/unnamed/part_000`: the conditions are
taken at construction time. -/
def DeleteV (table : String) (conds : List WhereCond) : DeleteStmtV :=
  { table := table, conds := conds }

/-- `DeleteStmt.toAST` of `src/unnamed/part_000`: reads `ds.conds[0]`
directly, so an empty condition list is an out-of-bounds runtime fault, not
an error result; otherwise only the first condition is consulted. -/
def DeleteStmtV.toAST (ds : DeleteStmtV) : GoOutcome DeleteAST :=
  match ds.conds with
  | [] => .fault "runtime error, index out of range 0 with length 0"
  | c :: _ =>
    match c.toASTWhere with
    | .error m => .err (.whereCondErr m)
    | .ok w => .ok { table := ds.table, whereCond := w }

/-- `DeleteStmt.SQL` of `src/unnamed/part_000`: `toAST` then the total
renderer, so the outcome is exactly that of `toAST`. -/
def DeleteStmtV.SQL (ds : DeleteStmtV) : GoOutcome DeleteAST :=
  ds.toAST

/-- `InsertStmt` of `src/unnamed/part_000`. -/
structure InsertStmtV where
  table : String
  cols : List String
  values : GoValue

/-- `Insert(table, cols)` of `src/unnamed/part_000`. -/
def InsertV (table : String) (cols : List String) : InsertStmtV :=
  { table := table, cols := cols, values := .nullV }

/-- `InsertStmt.Values` of `src/unnamed/part_000`. -/
def InsertStmtV.Values (s : InsertStmtV) (values : GoValue) : InsertStmtV :=
  { table := s.table, cols := s.cols, values := values }

/-- The free function `toValuesRow` of `src/unnamed/part_000`: it calls
`valV.Len()` without a kind check, so a non-sequence row is a reflect
runtime fault; a slice row is encoded element by element exactly as in the
chainable variant. (String rows, whose bytes `reflect` would iterate, do
not arise in any claim and are folded into the fault branch.) -/
def toValuesRowV (val : GoValue) : GoOutcome (List Expr) :=
  match val with
  | .sliceV elems =>
    match sliceRowAux elems with
    | .error e => .err e
    | .ok row => .ok row
  | v => .fault ("reflect, call of Value.Len on " ++ v.typeName ++ " value")

/-- The row loop of `InsertStmt.toAST` of `src/unnamed/part_000`, wrapping
row errors with the cant-convert message. -/
def insRowsV : List GoValue → GoOutcome (List (List Expr))
  | [] => .ok []
  | r :: rs =>
    match toValuesRowV r with
    | .fault m => .fault m
    | .err e => .err (.withMessage r.typeName e)
    | .ok row =>
      match insRowsV rs with
      | .fault m => .fault m
      | .err e => .err e
      | .ok rest => .ok (row :: rest)

/-- `InsertStmt.toAST` of `src/unnamed/part_000`: `reflect.ValueOf(nil)` is
the zero Value, whose `Type()` call is a runtime fault; a non-slice value
source is rejected with the values-not-a-slice error; an empty slice fails
with the empty-values error; otherwise rows are converted in order. -/
def InsertStmtV.toAST (s : InsertStmtV) : GoOutcome InsertAST :=
  match s.values with
  | .nullV => .fault "reflect, call of Value.Type on zero Value"
  | .sliceV rows =>
    if rows.length ≤ 0 then .err .emptyValues
    else
      match insRowsV rows with
      | .fault m => .fault m
      | .err e => .err e
      | .ok input => .ok { table := s.table, columns := s.cols, input := input }
  | _ => .err .valuesNotSlice

/-- `InsertStmt.SQL` of `src/unnamed/part_000` (rendering total). -/
def InsertStmtV.SQL (s : InsertStmtV) : GoOutcome InsertAST :=
  s.toAST

/-- Modelled from the spec: the `UpdateStmt` builder (spec sections 4.4 and
8, and the expectations of `src/update_test.go`), whose implementation is
not under `src/`. Assignments are `(identifier segments, value)` pairs in
call order. -/
structure UpdateStmt where
  table : String
  assigns : List (List String × GoValue)
  conds : List WhereCond

/-- Modelled from the spec: `Update(table)` starts with no assignments and
no conditions. -/
def Update (table : String) : UpdateStmt :=
  { table := table, assigns := [], conds := [] }

/-- Modelled from the spec: `UpdateStmt.Set` appends one assignment,
preserving call order and keeping duplicates. -/
def UpdateStmt.Set (s : UpdateStmt) (target : List String) (v : GoValue) : UpdateStmt :=
  { s with assigns := s.assigns ++ [(target, v)] }

/-- Modelled from the spec: `UpdateStmt.Where` appends conditions. -/
def UpdateStmt.Where (s : UpdateStmt) (conds : List WhereCond) : UpdateStmt :=
  { s with conds := s.conds ++ conds }

/-- The UPDATE statement tree. -/
structure UpdateAST where
  table : String
  assignAST : List (List String × Expr)
  whereCond : Expr

/-- Modelled from the spec: encoding of one SET assignment — an identifier
with zero segments is the deferred empty-identifier render error (spec
section 4.1), the value goes through `ToExpr`. -/
def encodeAssign : List String × GoValue → Except Err (List String × Expr)
  | (target, v) =>
    if target.length = 0 then .error .emptyIdent
    else
      match toExpr v with
      | .error e => .error e
      | .ok e => .ok (target, e)

/-- Sequencing of `encodeAssign` over the assignment list. -/
def encodeAssigns : List (List String × GoValue) → Except Err (List (List String × Expr))
  | [] => .ok []
  | a :: rest =>
    match encodeAssign a with
    | .error e => .error e
    | .ok ea =>
      match encodeAssigns rest with
      | .error e => .error e
      | .ok rest2 => .ok (ea :: rest2)

/-- Modelled from the spec: `UpdateStmt.toAST` — at least one assignment is
required (else the no-SET-clause error) and a non-empty WHERE is required
(else the no-WHERE-clause error); then assignments are encoded and the
conditions folded with AND. -/
def UpdateStmt.toAST (s : UpdateStmt) : Except Err UpdateAST :=
  if s.assigns.length = 0 then .error .noSetClause
  else if s.conds.length = 0 then .error .noWhereClause
  else
    match encodeAssigns s.assigns with
    | .error e => .error e
    | .ok asg =>
      match andToASTWhere s.conds with
      | .error e => .error e
      | .ok w => .ok { table := s.table, assignAST := asg, whereCond := w }

/-- Modelled from the spec: `UpdateStmt.SQL` (rendering total, see
`SelectStmt.SQL`). -/
def UpdateStmt.SQL (s : UpdateStmt) : Except Err UpdateAST :=
  s.toAST

/-- The values of a record whose fields resolve (via `columnNameOf`) to the
given column name, in field declaration order. Specification-side view of
the inner loop of `structToValuesRow`. -/
def resolvedMatches : List (String × String × GoValue) → String → List GoValue
  | [], _ => []
  | (n, tag, v) :: rest, col =>
    match columnNameOf n tag with
    | none => resolvedMatches rest col
    | some fn =>
      if fn = col then v :: resolvedMatches rest col
      else resolvedMatches rest col

/-- Specification-side view of the full struct row: per column of the
column list, the encoded matches, concatenated in column-list order. -/
def bindRows (fields : List (String × String × GoValue)) : List String → List Expr
  | [] => []
  | c :: cs =>
    ((resolvedMatches fields c).map fun v => Expr.defaultExpr (exprOf v))
      ++ bindRows fields cs

/-- A Go slice header over the `WhereCond` heap below: backing array index,
length and capacity (the clause slices of the builders are never re-sliced
at a nonzero offset, so no offset field is needed). -/
structure GoSlice where
  arr : Nat
  len : Nat
  cap : Nat

/-- The heap of backing arrays for `WhereCond` slices. Each array's list
has length equal to the array's capacity; slots past a slice's length hold
whatever was last written there. -/
structure Heap where
  arrays : List (List WhereCond)

/-- Content of an uninitialized backing-array slot. -/
def junkCond : WhereCond :=
  { toASTWhere := .error "uninitialized" }

/-- Read a backing array from the heap. -/
def Heap.readArr (h : Heap) (i : Nat) : List WhereCond :=
  h.arrays.getD i []

/-- The observable content of a slice: the first `len` slots of its backing
array. -/
def GoSlice.read (s : GoSlice) (h : Heap) : List WhereCond :=
  (h.readArr s.arr).take s.len

/-- Overwrite array slots starting at the given position. -/
def writeAt (arr : List WhereCond) (pos : Nat) : List WhereCond → List WhereCond
  | [] => arr
  | x :: rest => writeAt (arr.set pos x) (pos + 1) rest

/-- Capacity of the array allocated when a slice must grow: the Go
`growslice` doubling policy for small slices (the size-class rounding of
the runtime coincides with plain doubling at every capacity reached in
this development, where elements are two-word interface values). -/
def growCap (oldCap need : Nat) : Nat :=
  max need (2 * oldCap)

/-- Go `append(s, xs...)` on the heap: when the backing array has spare
capacity the new elements are written in place into the shared array and
the returned header keeps the same array index; otherwise a fresh array is
allocated, the live prefix is copied and the new elements follow. -/
def goAppend (h : Heap) (s : GoSlice) (xs : List WhereCond) : Heap × GoSlice :=
  let need := s.len + xs.length
  if need ≤ s.cap then
    ({ arrays := h.arrays.set s.arr (writeAt (h.readArr s.arr) s.len xs) },
     { arr := s.arr, len := need, cap := s.cap })
  else
    let newCap := growCap s.cap need
    let content := (h.readArr s.arr).take s.len ++ xs
    ({ arrays := h.arrays ++ [content ++ List.replicate (newCap - need) junkCond] },
     { arr := h.arrays.length, len := need, cap := newCap })

/-- The empty heap. -/
def emptyHeap : Heap :=
  { arrays := [] }

/-- The nil slice (`cap` zero, so any non-trivial append reallocates). -/
def nilSlice : GoSlice :=
  { arr := 0, len := 0, cap := 0 }

/-- `DeleteStmt` of `src/memeduck.go` with its `conds` field at the Go
slice-header level of abstraction, for reasoning about backing-array
sharing across derived statements. -/
structure DeleteStmtH where
  table : String
  conds : GoSlice

/-- `Delete(table)` at the slice-header level: the nil slice. -/
def DeleteH (table : String) : DeleteStmtH :=
  { table := table, conds := nilSlice }

/-- `DeleteStmt.Where` of `src/memeduck.go` at the slice-header level: the
struct is copied and `append(s.conds, conds...)` produces the new header
(sharing the backing array whenever capacity suffices). -/
def DeleteStmtH.Where (s : DeleteStmtH) (h : Heap) (cs : List WhereCond) :
    Heap × DeleteStmtH :=
  let r := goAppend h s.conds cs
  (r.1, { table := s.table, conds := r.2 })

/-- A concrete distinguishable condition (constant integer expression). -/
def cw (n : Int) : WhereCond :=
  { toASTWhere := .ok (.intLit n) }

/-- Scenario for the aliasing analysis: `Delete("t").Where(cw 1)`. -/
def aliasStep1 : Heap × DeleteStmtH :=
  (DeleteH "t").Where emptyHeap [cw 1]

/-- `.Where(cw 2)` on the previous statement. -/
def aliasStep2 : Heap × DeleteStmtH :=
  aliasStep1.2.Where aliasStep1.1 [cw 2]

/-- `.Where(cw 3)`: the common ancestor `base`, whose conds slice has
length three and capacity four. -/
def aliasBase : Heap × DeleteStmtH :=
  aliasStep2.2.Where aliasStep2.1 [cw 3]

/-- First derived statement: `s1 := base.Where(cw 4)` (fills the spare
slot of the shared backing array in place). -/
def aliasS1 : Heap × DeleteStmtH :=
  aliasBase.2.Where aliasBase.1 [cw 4]

/-- Second derived statement: `s2 := base.Where(cw 5)`, appended after
`s1` from the same ancestor (overwrites the same shared slot). -/
def aliasS2 : Heap × DeleteStmtH :=
  aliasBase.2.Where aliasS1.1 [cw 5]

/-! Theorems. -/

/-- The AND fold never produces the no-columns error: its only failures are
the per-condition errors and the empty-conditions rejection. -/
theorem andFold_ne_noCols (acc : Expr) (cs : List WhereCond) :
    andFold acc cs ≠ Except.error Err.noColumnsSpecified := by
  induction cs generalizing acc with
  | nil => simp [andFold]
  | cons c cs ih =>
    unfold andFold
    cases h : c.toASTWhere with
    | error m => simp [h]
    | ok e => exact ih _

/-- `And(...).ToASTWhere()` never produces the no-columns error. -/
theorem andToASTWhere_ne_noCols (cs : List WhereCond) :
    andToASTWhere cs ≠ Except.error Err.noColumnsSpecified := by
  cases cs with
  | nil => simp [andToASTWhere]
  | cons c cs =>
    show (match c.toASTWhere with
          | Except.error m => Except.error (Err.whereCondErr m)
          | Except.ok e => andFold e cs) ≠ Except.error Err.noColumnsSpecified
    cases h : c.toASTWhere with
    | error m => simp [h]
    | ok e => exact andFold_ne_noCols _ _

/-- C7: `Select(table, [])` renders to the no-columns-specified error for
every table name, and for a statement with a non-empty column list the
render never fails with that error (its only other failures come from the
WHERE conditions, which produce distinct errors). -/
theorem select_empty_cols_noColumnsSpecified (t : String) :
    (Select t []).SQL = .error Err.noColumnsSpecified ∧
    ∀ s : SelectStmt, s.cols ≠ [] → s.SQL ≠ .error Err.noColumnsSpecified := by
  constructor
  · rfl
  · intro s hcols
    unfold SelectStmt.SQL SelectStmt.toAST
    have hlen : ¬ s.cols.length ≤ 0 := by
      simpa [Nat.le_zero, List.length_eq_zero] using hcols
    by_cases hc : s.conds.length > 0
    · simp only [hc, if_true]
      cases hw : andToASTWhere s.conds with
      | error e =>
        show ¬ (Except.error e : Except Err SelectAST) = Except.error Err.noColumnsSpecified
        intro hEq
        injection hEq with h2
        exact andToASTWhere_ne_noCols s.conds (by rw [hw, h2])
      | ok w => simp [hlen]
    · simp [hc, hlen]

/-- Witness for C7 at concrete inputs. -/
theorem select_empty_cols_noColumnsSpecified_witness :
    (Select "t" []).SQL = .error Err.noColumnsSpecified ∧
    (Select "t" ["a"]).SQL ≠ .error Err.noColumnsSpecified := by
  exact ⟨(select_empty_cols_noColumnsSpecified "t").1,
         (select_empty_cols_noColumnsSpecified "t").2 (Select "t" ["a"]) (by simp [Select])⟩

/-- C5: for the chainable Delete builder, an empty WHERE is surfaced by the
render call as an error result; the constructor and the `Where` method are
total value constructions that never fail (Where computes exactly the
appended statement). -/
theorem delete_empty_where_fails_at_render (t : String) :
    (Delete t).SQL = .error Err.emptyConds ∧
    (∀ (s : DeleteStmt) (cs : List WhereCond),
      (s.Where cs).table = s.table ∧ (s.Where cs).conds = s.conds ++ cs) ∧
    ∀ s : DeleteStmt, s.conds = [] → s.SQL = .error Err.emptyConds := by
  refine ⟨rfl, fun s cs => ⟨rfl, rfl⟩, fun s hs => ?_⟩
  unfold DeleteStmt.SQL DeleteStmt.toAST
  rw [hs]
  rfl

/-- Witness for C5 at concrete inputs. -/
theorem delete_empty_where_fails_at_render_witness :
    (Delete "t").SQL = .error Err.emptyConds ∧
    ((Delete "t").Where []).SQL = .error Err.emptyConds := by
  exact ⟨(delete_empty_where_fails_at_render "t").1,
         (delete_empty_where_fails_at_render "t").2.2 _ rfl⟩

/-- C6: in the variadic-constructor Delete variant of
`src/unnamed/part_000`, rendering a statement constructed with zero
conditions reaches the unguarded `conds[0]` access and is an out-of-bounds
runtime fault, not an error result. -/
theorem deleteV_empty_conds_out_of_bounds (t : String) :
    (DeleteV t []).SQL
      = GoOutcome.fault "runtime error, index out of range 0 with length 0" := rfl

/-- C4: an Update without any Set call fails with the no-SET-clause error,
and with at least one Set call but no Where call it fails with the
no-WHERE-clause error. -/
theorem update_noSet_noWhere_errors (s : UpdateStmt) :
    (s.assigns = [] → s.SQL = .error Err.noSetClause) ∧
    (s.assigns ≠ [] → s.conds = [] → s.SQL = .error Err.noWhereClause) := by
  constructor
  · intro h
    unfold UpdateStmt.SQL UpdateStmt.toAST
    rw [h]
    rfl
  · intro h1 h2
    unfold UpdateStmt.SQL UpdateStmt.toAST
    rw [h2]
    have hl : s.assigns.length ≠ 0 := by
      simpa [List.length_eq_zero] using h1
    simp [hl]

/-- Witness for C4 at concrete inputs. -/
theorem update_noSet_noWhere_errors_witness :
    (Update "hoge").SQL = .error Err.noSetClause ∧
    ((Update "hoge").Set ["a"] (GoValue.intV 1)).SQL = .error Err.noWhereClause := by
  constructor
  · exact (update_noSet_noWhere_errors (Update "hoge")).1 rfl
  · refine (update_noSet_noWhere_errors ((Update "hoge").Set ["a"] (GoValue.intV 1))).2 ?_ rfl
    intro h
    simp [Update, UpdateStmt.Set] at h

/-- C1: evidence that the claim fails on the code. From the common ancestor
`base = Delete("t").Where(cw 1).Where(cw 2).Where(cw 3)` (conds length
three, capacity four), the derivation `s1 := base.Where(cw 4)` writes into
the shared backing array in place, and the later `s2 := base.Where(cw 5)`
overwrites the same slot: reading `s1`'s clause list before `s2`'s append
gives `[cw 1, cw 2, cw 3, cw 4]`, and after it gives
`[cw 1, cw 2, cw 3, cw 5]` — the append performed on `s2` is observable
through `s1`'s clause list. -/
theorem where_append_aliasing_observable :
    aliasS1.2.conds.read aliasS1.1 = [cw 1, cw 2, cw 3, cw 4] ∧
    aliasS1.2.conds.read aliasS2.1 = [cw 1, cw 2, cw 3, cw 5] := by
  constructor <;> rfl

/-- Counterexample for C2: the column list is never validated — an Insert
with an empty column list and a well-formed value source renders
successfully instead of failing. -/
theorem insert_empty_columns_renders :
    ((Insert "t" []).Values (GoValue.sliceV [GoValue.sliceV [GoValue.intV 1]])).SQL
      = .ok { table := "t", columns := [],
              input := [[Expr.defaultExpr (Expr.intLit 1)]] } := rfl

/-- C2 (amended): `SQL()` fails with the no-input error when the value
source was never set (nil) and with the empty-values error when the source
is an empty sequence; it succeeds only when the source is a non-empty
sequence; the column list is not checked. -/
theorem insert_value_source_errors (s : InsertStmt) :
    (s.values = GoValue.nullV → s.SQL = .error Err.noInputSpecified) ∧
    (s.values = GoValue.sliceV [] → s.SQL = .error Err.emptyValues) ∧
    (∀ a, s.SQL = .ok a → ∃ rows, s.values = GoValue.sliceV rows ∧ rows ≠ []) := by
  refine ⟨fun h => ?_, fun h => ?_, fun a ha => ?_⟩
  · unfold InsertStmt.SQL InsertStmt.toAST
    rw [h]
    rfl
  · unfold InsertStmt.SQL InsertStmt.toAST
    rw [h]
    rfl
  · unfold InsertStmt.SQL InsertStmt.toAST at ha
    cases hv : s.values
    case sliceV rows =>
      rw [hv] at ha
      cases rows with
      | nil => simp [GoValue.isNil, InsertStmt.sliceToInsertInput] at ha
      | cons r rs => exact ⟨r :: rs, rfl, by simp⟩
    all_goals rw [hv] at ha
    all_goals simp [GoValue.isNil] at ha

/-- Witness for C2 at concrete inputs. -/
theorem insert_value_source_errors_witness :
    (Insert "t" ["a"]).SQL = .error Err.noInputSpecified ∧
    ((Insert "t" ["a"]).Values (GoValue.sliceV [])).SQL = .error Err.emptyValues := by
  exact ⟨(insert_value_source_errors (Insert "t" ["a"])).1 rfl,
         (insert_value_source_errors ((Insert "t" ["a"]).Values (GoValue.sliceV []))).2.1 rfl⟩

/-- C10: a value source that is set (non-nil) but is not a slice-shaped
sequence is rejected by both Insert implementations as an error result —
the chainable variant with the cant-create-insert-input error, the
variadic variant with the values-not-a-slice error. -/
theorem insert_rejects_non_sequence_source (v : GoValue)
    (hnil : v ≠ GoValue.nullV) (hslice : ∀ elems, v ≠ GoValue.sliceV elems) :
    (∀ s : InsertStmt, s.values = v → s.SQL = .error Err.cantCreateInsertInput) ∧
    (∀ sv : InsertStmtV, sv.values = v → sv.SQL = .err Err.valuesNotSlice) := by
  constructor
  · intro s hs
    unfold InsertStmt.SQL InsertStmt.toAST
    rw [hs]
    cases v
    case nullV => exact absurd rfl hnil
    case sliceV elems => exact absurd rfl (hslice elems)
    all_goals rfl
  · intro sv hs
    unfold InsertStmtV.SQL InsertStmtV.toAST
    rw [hs]
    cases v
    case nullV => exact absurd rfl hnil
    case sliceV elems => exact absurd rfl (hslice elems)
    all_goals rfl

/-- Witness for C10 at a concrete non-sequence source (a bare struct). -/
theorem insert_rejects_non_sequence_source_witness :
    ((Insert "t" ["a"]).Values (GoValue.structV "T" [])).SQL
      = .error Err.cantCreateInsertInput ∧
    ((InsertV "t" ["a"]).Values (GoValue.structV "T" [])).SQL
      = .err Err.valuesNotSlice := by
  have h := insert_rejects_non_sequence_source (GoValue.structV "T" [])
    (by intro hEq; injection hEq) (by intro elems hEq; injection hEq)
  exact ⟨h.1 _ rfl, h.2 _ rfl⟩

/-- The slice-row element loop encodes each element with `ToExpr` in order
and succeeds whenever every element is encodable. -/
theorem sliceRowAux_ok (elems : List GoValue)
    (h : ∀ v ∈ elems, isOkE (toExpr v) = true) :
    sliceRowAux elems = .ok (elems.map fun v => Expr.defaultExpr (exprOf v)) := by
  induction elems with
  | nil => rfl
  | cons v vs ih =>
    have hv := h v (List.mem_cons_self v vs)
    have hvs : ∀ x ∈ vs, isOkE (toExpr x) = true :=
      fun x hx => h x (List.mem_cons_of_mem _ hx)
    unfold sliceRowAux
    cases he : toExpr v with
    | error e => rw [he] at hv; simp [isOkE] at hv
    | ok e =>
      rw [ih hvs]
      simp [exprOf, he]

/-- C9: a sequence-shaped row is encoded element by element via `ToExpr`
in order; the statement (hence its column list) is never consulted, no
length check is performed, and a row of any length encodes successfully
when every element is encodable. -/
theorem sliceRow_encodes_elementwise (s s2 : InsertStmt) (elems : List GoValue) :
    s.sliceToValuesRow elems = s2.sliceToValuesRow elems ∧
    ((∀ v ∈ elems, isOkE (toExpr v) = true) →
      s.sliceToValuesRow elems
        = .ok (elems.map fun v => Expr.defaultExpr (exprOf v))) := by
  exact ⟨rfl, fun h => sliceRowAux_ok elems h⟩

/-- Witness for C9: a three-element row encodes against a one-column
statement. -/
theorem sliceRow_encodes_elementwise_witness :
    (Insert "t" ["a"]).sliceToValuesRow
        [GoValue.intV 1, GoValue.boolV true, GoValue.strV "x"]
      = .ok [Expr.defaultExpr (Expr.intLit 1), Expr.defaultExpr (Expr.boolLit true),
             Expr.defaultExpr (Expr.strLit "x")] := by
  exact (sliceRow_encodes_elementwise (Insert "t" ["a"]) (Insert "u" ["b", "c"]) _).2
    (by decide)

/-- Every match collected for a column is the value of some field of the
record. -/
theorem mem_resolvedMatches (fields : List (String × String × GoValue)) (col : String)
    (v : GoValue) (hv : v ∈ resolvedMatches fields col) :
    ∃ f, f ∈ fields ∧ f.2.2 = v := by
  induction fields with
  | nil => cases hv
  | cons f rest ih =>
    obtain ⟨n, tag, w⟩ := f
    unfold resolvedMatches at hv
    cases hc : columnNameOf n tag with
    | none =>
      simp only [hc] at hv
      obtain ⟨g, hg, hgv⟩ := ih hv
      exact ⟨g, List.mem_cons_of_mem _ hg, hgv⟩
    | some fn =>
      simp only [hc] at hv
      by_cases hf : fn = col
      · rw [if_pos hf] at hv
        rcases List.mem_cons.mp hv with hEq | hv2
        · exact ⟨(n, tag, w), List.mem_cons_self _ _, hEq.symm⟩
        · obtain ⟨g, hg, hgv⟩ := ih hv2
          exact ⟨g, List.mem_cons_of_mem _ hg, hgv⟩
      · rw [if_neg hf] at hv
        obtain ⟨g, hg, hgv⟩ := ih hv
        exact ⟨g, List.mem_cons_of_mem _ hg, hgv⟩

/-- The inner field loop collects exactly the encoded matches of its
column, provided each matched value is encodable. -/
theorem colExprs_ok (col : String) (fields : List (String × String × GoValue))
    (h : ∀ v ∈ resolvedMatches fields col, isOkE (toExpr v) = true) :
    colExprs col fields
      = .ok ((resolvedMatches fields col).map fun v => Expr.defaultExpr (exprOf v)) := by
  induction fields with
  | nil => rfl
  | cons f rest ih =>
    obtain ⟨n, tag, w⟩ := f
    cases hc : columnNameOf n tag with
    | none =>
      have hm : resolvedMatches ((n, tag, w) :: rest) col = resolvedMatches rest col := by
        simp [resolvedMatches, hc]
      have hstep : colExprs col ((n, tag, w) :: rest) = colExprs col rest := by
        simp [colExprs, hc]
      rw [hm] at h ⊢
      rw [hstep]
      exact ih h
    | some fn =>
      by_cases hf : fn = col
      · have hm : resolvedMatches ((n, tag, w) :: rest) col
            = w :: resolvedMatches rest col := by
          simp [resolvedMatches, hc, hf]
        rw [hm] at h ⊢
        have hw := h w (List.mem_cons_self _ _)
        have hrest : ∀ v ∈ resolvedMatches rest col, isOkE (toExpr v) = true :=
          fun v hv => h v (List.mem_cons_of_mem _ hv)
        cases he : toExpr w with
        | error e => rw [he] at hw; simp [isOkE] at hw
        | ok e => simp [colExprs, hc, hf, he, ih hrest, exprOf]
      · have hm : resolvedMatches ((n, tag, w) :: rest) col = resolvedMatches rest col := by
          simp [resolvedMatches, hc, hf]
        have hstep : colExprs col ((n, tag, w) :: rest) = colExprs col rest := by
          simp [colExprs, hc, hf]
        rw [hm] at h ⊢
        rw [hstep]
        exact ih h

/-- The outer column loop produces the concatenated per-column matches when
every field value is encodable and every column has at least one match. -/
theorem structRowAux_ok (tn : String) (fields : List (String × String × GoValue))
    (cols : List String)
    (hEnc : ∀ f ∈ fields, isOkE (toExpr f.2.2) = true)
    (hFound : ∀ c ∈ cols, resolvedMatches fields c ≠ []) :
    structRowAux tn fields cols = .ok (bindRows fields cols) := by
  induction cols with
  | nil => rfl
  | cons c cs ih =>
    have hEncC : ∀ v ∈ resolvedMatches fields c, isOkE (toExpr v) = true := by
      intro v hv
      obtain ⟨f, hf, hfv⟩ := mem_resolvedMatches fields c v hv
      rw [← hfv]
      exact hEnc f hf
    unfold structRowAux bindRows
    rw [colExprs_ok c fields hEncC]
    obtain ⟨m, ms, hm⟩ := List.exists_cons_of_ne_nil (hFound c (List.mem_cons_self c cs))
    rw [hm]
    simp only [List.map_cons]
    rw [ih (fun c2 h2 => hFound c2 (List.mem_cons_of_mem _ h2))]

/-- When the first columns all have matches and a later column has none,
the outer loop fails with the column-not-found error naming the first
matchless column. -/
theorem structRowAux_first_missing (tn : String) (fields : List (String × String × GoValue))
    (pre : List String) (c : String) (post : List String)
    (hEnc : ∀ f ∈ fields, isOkE (toExpr f.2.2) = true)
    (hpre : ∀ c2 ∈ pre, resolvedMatches fields c2 ≠ [])
    (hc : resolvedMatches fields c = []) :
    structRowAux tn fields (pre ++ c :: post) = .error (.columnNotFound tn c) := by
  induction pre with
  | nil =>
    show structRowAux tn fields (c :: post) = _
    unfold structRowAux
    rw [colExprs_ok c fields (by rw [hc]; intro v hv; cases hv)]
    rw [hc]
    rfl
  | cons p pre2 ih =>
    have hEncP : ∀ v ∈ resolvedMatches fields p, isOkE (toExpr v) = true := by
      intro v hv
      obtain ⟨f, hf, hfv⟩ := mem_resolvedMatches fields p v hv
      rw [← hfv]
      exact hEnc f hf
    simp only [List.cons_append]
    unfold structRowAux
    rw [colExprs_ok p fields hEncP]
    obtain ⟨m, ms, hm⟩ := List.exists_cons_of_ne_nil (hpre p (List.mem_cons_self p pre2))
    rw [hm]
    simp only [List.map_cons]
    rw [ih (fun c2 h2 => hpre c2 (List.mem_cons_of_mem _ h2))]

/-- Length of the concatenated per-column matches: the sum over the column
list of the per-column match counts. -/
theorem bindRows_length (fields : List (String × String × GoValue)) (cols : List String) :
    (bindRows fields cols).length
      = (cols.map fun c => (resolvedMatches fields c).length).sum := by
  induction cols with
  | nil => rfl
  | cons c cs ih =>
    unfold bindRows
    simp [ih]

/-- A list of positive naturals sums to at least its length. -/
theorem length_le_sum_of_all_pos (ns : List Nat) (h : ∀ n ∈ ns, 1 ≤ n) :
    ns.length ≤ ns.sum := by
  induction ns with
  | nil => simp
  | cons n ns ih =>
    have h1 := h n (List.mem_cons_self n ns)
    have h2 := ih fun m hm => h m (List.mem_cons_of_mem _ hm)
    simp only [List.length_cons, List.sum_cons]
    omega

/-- A list of positive naturals one of which is at least two sums to more
than its length. -/
theorem length_lt_sum_of_all_pos_of_two_le (ns : List Nat)
    (h1 : ∀ n ∈ ns, 1 ≤ n) (h2 : ∃ n ∈ ns, 2 ≤ n) :
    ns.length < ns.sum := by
  induction ns with
  | nil =>
    obtain ⟨n, hn, _⟩ := h2
    cases hn
  | cons n ns ih =>
    obtain ⟨m, hm, hm2⟩ := h2
    have hhead := h1 n (List.mem_cons_self n ns)
    have htail : ∀ k ∈ ns, 1 ≤ k := fun k hk => h1 k (List.mem_cons_of_mem _ hk)
    simp only [List.length_cons, List.sum_cons]
    cases hm with
    | head =>
      have := length_le_sum_of_all_pos ns htail
      omega
    | tail _ hm3 =>
      have := ih htail ⟨m, hm3, hm2⟩
      omega

/-- When every column has exactly one match, the concatenated per-column
matches reduce to the column-indexed map of the unique match. -/
theorem bindRows_singleton (fields : List (String × String × GoValue)) (cols : List String)
    (hOne : ∀ c ∈ cols, (resolvedMatches fields c).length = 1) :
    bindRows fields cols
      = cols.map fun c =>
          Expr.defaultExpr (exprOf ((resolvedMatches fields c).headD GoValue.nullV)) := by
  induction cols with
  | nil => rfl
  | cons c cs ih =>
    have h1 := hOne c (List.mem_cons_self c cs)
    obtain ⟨m, ms, hm⟩ := List.exists_cons_of_ne_nil
      (show resolvedMatches fields c ≠ [] by
        intro hnil
        rw [hnil] at h1
        simp at h1)
    have hms : ms = [] := by
      rw [hm] at h1
      simpa using h1
    subst hms
    unfold bindRows
    rw [hm]
    simp only [List.map_cons, List.headD_cons, List.map_nil, List.nil_append,
      List.singleton_append]
    rw [ih (fun c2 h2 => hOne c2 (List.mem_cons_of_mem _ h2))]
    simp [hm]

/-- Counterexample for C3: with a duplicate column alias (field `a` and
field `X` tagged `a`), encoding against the single column `a` produces a
row of two Expressions, not one Expression per column. -/
theorem structRow_one_per_column_counterexample :
    (Insert "t" ["a"]).structToValuesRow "T"
        [("a", "", GoValue.intV 1), ("X", "a", GoValue.intV 2)]
      = .ok [Expr.defaultExpr (Expr.intLit 1), Expr.defaultExpr (Expr.intLit 2)] := rfl

/-- C3 (amended): when each column of the column list matches exactly one
field, encoding produces one Expression per column, ordered by the column
list regardless of field declaration order (the row is the column-indexed
map of each column's unique match); and when the columns up to some column
all have matches but that column has none, encoding fails with the
column-not-found error naming that column and the record type. -/
theorem structRow_by_column_list (s : InsertStmt) (tn : String)
    (fields : List (String × String × GoValue))
    (hEnc : ∀ f ∈ fields, isOkE (toExpr f.2.2) = true) :
    ((∀ c ∈ s.cols, (resolvedMatches fields c).length = 1) →
      s.structToValuesRow tn fields
        = .ok (s.cols.map fun c =>
            Expr.defaultExpr (exprOf ((resolvedMatches fields c).headD GoValue.nullV)))) ∧
    (∀ pre c post, s.cols = pre ++ c :: post →
      (∀ c2 ∈ pre, resolvedMatches fields c2 ≠ []) →
      resolvedMatches fields c = [] →
      s.structToValuesRow tn fields = .error (.columnNotFound tn c)) := by
  constructor
  · intro hOne
    have hFound : ∀ c ∈ s.cols, resolvedMatches fields c ≠ [] := by
      intro c hcm
      have := hOne c hcm
      intro hnil
      rw [hnil] at this
      simp at this
    have hmain := structRowAux_ok tn fields s.cols hEnc hFound
    rw [← bindRows_singleton fields s.cols hOne]
    exact hmain
  · intro pre c post hcols hpre hc
    show structRowAux tn fields s.cols = _
    rw [hcols]
    exact structRowAux_first_missing tn fields pre c post hEnc hpre hc

/-- Witness for C3 at a concrete record whose fields are declared in the
reverse of the column order. -/
theorem structRow_by_column_list_witness :
    (Insert "t" ["a", "b"]).structToValuesRow "T"
        [("b", "", GoValue.intV 2), ("a", "", GoValue.intV 1)]
      = .ok [Expr.defaultExpr (Expr.intLit 1), Expr.defaultExpr (Expr.intLit 2)] := by
  exact (structRow_by_column_list (Insert "t" ["a", "b"]) "T"
      [("b", "", GoValue.intV 2), ("a", "", GoValue.intV 1)] (by decide)).1 (by decide)

/-- C8: when every field value is encodable, every column has a match, and
some column has at least two matching fields (a duplicate alias), encoding
succeeds with one Expression per matching field — the row length is the sum
of the per-column match counts, strictly longer than the column list. -/
theorem structRow_duplicate_alias_longer_row (s : InsertStmt) (tn : String)
    (fields : List (String × String × GoValue))
    (hEnc : ∀ f ∈ fields, isOkE (toExpr f.2.2) = true)
    (hFound : ∀ c ∈ s.cols, (resolvedMatches fields c).length ≠ 0)
    (hDup : ∃ c ∈ s.cols, 2 ≤ (resolvedMatches fields c).length) :
    ∃ row, s.structToValuesRow tn fields = .ok row ∧
      row.length = (s.cols.map fun c => (resolvedMatches fields c).length).sum ∧
      s.cols.length < row.length := by
  have hFound2 : ∀ c ∈ s.cols, resolvedMatches fields c ≠ [] := by
    intro c hcm hnil
    exact hFound c hcm (by rw [hnil]; rfl)
  refine ⟨bindRows fields s.cols, structRowAux_ok tn fields s.cols hEnc hFound2,
    bindRows_length fields s.cols, ?_⟩
  rw [bindRows_length]
  have hlt := length_lt_sum_of_all_pos_of_two_le
    (s.cols.map fun c => (resolvedMatches fields c).length) ?_ ?_
  · simpa using hlt
  · intro n hn
    obtain ⟨c, hcm, hcn⟩ := List.mem_map.mp hn
    rw [← hcn]
    exact Nat.one_le_iff_ne_zero.mpr (hFound c hcm)
  · obtain ⟨c, hcm, hc2⟩ := hDup
    exact ⟨_, List.mem_map_of_mem _ hcm, hc2⟩

/-- Witness for C8 at a concrete record with a duplicate alias. -/
theorem structRow_duplicate_alias_longer_row_witness :
    ∃ row, (Insert "t" ["a"]).structToValuesRow "T"
        [("a", "", GoValue.intV 1), ("X", "a", GoValue.intV 2)] = .ok row ∧
      row.length = 2 ∧ 1 < row.length := by
  obtain ⟨row, h1, h2, h3⟩ := structRow_duplicate_alias_longer_row (Insert "t" ["a"]) "T"
      [("a", "", GoValue.intV 1), ("X", "a", GoValue.intV 2)]
      (by decide) (by decide) (by decide)
  refine ⟨row, h1, ?_, h3⟩
  rw [h2]
  decide

end Memeduck
